import Mathlib

/-!
Verification development for the LaTeX project translator
(`main.py`, class `LatexProjectTranslator`).

The translator's own code (chunk loop, fence extraction, usage
aggregation, cost estimation, project orchestration) is embedded
directly from the source.  Its external collaborators — the source
loader (`tex_source.py`), the chunk splitter (`splitter.py`), the
prompt template (`chat_prompt.py`) and the completion client / token
counter (`llm.py`) — are not part of the sources; they are modelled
from the specification at their interface boundary, as abstract
parameters wherever possible.
-/

namespace LatexCopilot

/-- The backtick character, written via its code point. -/
def btick : Char := Char.ofNat 96

/-- If the character list starts with a triple backtick, return the remainder
after it; otherwise `none`.  This is the basic building block for embedding
the regex `r'```(.+?)```'` (searched with `re.DOTALL`). -/
def openBody : List Char → Option (List Char)
  | c1 :: c2 :: c3 :: rest =>
    if c1 = btick ∧ c2 = btick ∧ c3 = btick then some rest else none
  | _ => none

/-- Non-greedy scan for the closing ```` ``` ````: consume at least one
character into the (reversed) accumulator `acc`; after each consumed
character test whether the rest starts with ```` ``` ````, and if so return
the accumulated group (the shortest possible one, mirroring `(.+?)`). -/
def scanClose : List Char → List Char → Option (List Char)
  | _, [] => none
  | acc, c :: rest =>
    if (openBody rest).isSome then some (List.reverse (c :: acc))
    else scanClose (c :: acc) rest

/-- Embedding of `re.search(r'```(.+?)```', s, re.DOTALL)`: try every start
position from the left; at a position starting with ```` ``` ````, look for
the nearest closing ```` ``` ```` after at least one group character; if no
close exists, move the start one character to the right. -/
def searchFence : List Char → Option (List Char)
  | [] => none
  | c :: rest =>
    match openBody (c :: rest) with
    | some body =>
      match scanClose [] body with
      | some g => some g
      | none => searchFence rest
    | none => searchFence rest

/-- Embedding of Python `s.replace('```', '')`: remove non-overlapping
occurrences of triple backticks, scanning left to right. -/
def stripTB : List Char → List Char
  | [] => []
  | [c] => [c]
  | [c1, c2] => [c1, c2]
  | c1 :: c2 :: c3 :: rest =>
    if c1 = btick ∧ c2 = btick ∧ c3 = btick then stripTB rest
    else c1 :: stripTB (c2 :: c3 :: rest)

/-- Embedding of the response-extraction step of `translate`
(`main.py` lines 36–40): if the fence regex matches, return the matched
group with embedded triple backticks stripped; otherwise fall back to the
raw text with triple backticks stripped. -/
def extract (raw : String) : String :=
  match searchFence raw.toList with
  | some g => String.mk (stripTB g)
  | none => String.mk (stripTB raw.toList)

/-- A role-tagged prompt message (role, content), as produced by the prompt
template collaborator. -/
abbrev Message := String × String

/-- Token-usage record of a completion response.  Each of the two fields may
be individually absent, mirroring dictionary access
`response['usage']['prompt_tokens']` / `['completion_tokens']`. -/
structure Usage where
  prompt_tokens : Option Nat
  completion_tokens : Option Nat
  deriving DecidableEq

/-- A completion response.  `content` models
`response['choices'][0]['message']['content']`; `usage` models the optional
`response['usage']` record. -/
structure Response where
  content : String
  usage : Option Usage
  deriving DecidableEq

/-- Observable events of one translation run: the ongoing-file callback
(`update_ongoing_file_cb(name)`), the chunk-complete callback
(`complete_chunk_cb()`, recorded together with a snapshot of the run
counters at the moment the callback fires), and a file write
(`aiofiles.open(to_dir / name, 'w')` followed by `write(content)`). -/
inductive Event where
  | ongoing (name : String)
  | chunkCb (translated_chunks : Nat) (translation_responses : List Response)
  | write (name : String) (content : String)
  deriving DecidableEq

/-- The mutable state of a `LatexProjectTranslator` instance during a run:
the Translation Run State (`translation_responses`, `translated_chunks`)
plus two pieces of instrumentation — `ncalls`, the number of completion
client calls issued so far (used to index the client oracle), and `trace`,
the ordered log of observable events. -/
structure St where
  translation_responses : List Response
  translated_chunks : Nat
  ncalls : Nat
  trace : List Event
  deriving DecidableEq

/-- A pristine instance state. -/
def initSt : St :=
  { translation_responses := [], translated_chunks := 0, ncalls := 0, trace := [] }

/-- Modelled from the spec: the external collaborators of the translator —
the Chunk Splitter (`splitter.py`, `split_text`), the Prompt Builder
(`chat_prompt.py`, `create_messages`) and the Token Counter (`llm.py`,
`count_tokens` on raw text and on message lists).  None of these are part
of the sources, so they enter the model as abstract functions. -/
structure Collaborators where
  split_text : String → List String
  create_messages : String → List Message
  count_tokens_text : String → Nat
  count_tokens_messages : List Message → Nat

/-- Modelled from the spec: the Completion Client
(`async_chat_completion`).  The `n`-th call of a run receives the built
messages and either returns a response or fails (`none`), in which case the
Python code would raise and abort the body translation. -/
def Client : Type := Nat → List Message → Option Response

/-- A parsed document node (owned by the external loader): verbatim text,
a command invocation, or a named environment with children.  An environment
carries its original opening and closing markers so that
`latex_verbatim` can reproduce the source text exactly. -/
inductive Node where
  | text (s : String)
  | command (s : String)
  | env (name : String) (beginMarker : String) (endMarker : String)
      (children : List Node)

mutual

/-- Modelled from the spec: `node.latex_verbatim()` reproduces the node's
original source text, markers included. -/
def latex_verbatim : Node → String
  | Node.text s => s
  | Node.command s => s
  | Node.env _ b e children => b ++ verbatimList children ++ e

/-- Verbatim text of a node sequence, in order, with no separators. -/
def verbatimList : List Node → String
  | [] => ""
  | n :: rest => latex_verbatim n ++ verbatimList rest

end

/-- Modelled from the spec: the loader's way to flatten a node sequence
back into literal source text (`get_text_from_nodes`). -/
def get_text_from_nodes (nodes : List Node) : String :=
  verbatimList nodes

mutual

/-- Modelled from the spec: `LatexSourcesLoader.find_env_node(node, name)`,
the recursive search for a named environment within a node. -/
def find_env_node : Node → String → Option Node
  | n@(Node.env en _ _ children), envname =>
    if en = envname then some n else find_env_in_list children envname
  | _, _ => none

/-- Recursive environment search over a node list (first hit wins). -/
def find_env_in_list : List Node → String → Option Node
  | [], _ => none
  | n :: rest, envname =>
    match find_env_node n envname with
    | some d => some d
    | none => find_env_in_list rest envname

end

/-- The `nodelist` attribute of an environment node. -/
def Node.nodelist : Node → List Node
  | Node.env _ _ _ children => children
  | _ => []

/-- Modelled from the spec: the loader's result — a mapping from source
identifier to its ordered node sequence (association list in declared key
order, as Python dictionaries preserve insertion order) plus the designated
main-source key. -/
structure LatexSourcesLoader where
  sources : List (String × List Node)
  main_source : String

/-- Association-list lookup, mirroring `self.source.sources[key]`. -/
def lookupSource : List (String × List Node) → String → Option (List Node)
  | [], _ => none
  | (k, v) :: rest, key => if k = key then some v else lookupSource rest key

/-- Accumulator of the main-source node walk in `translate_project`
(lines 79–92): text before the `document` environment, the environment's
node list once found, and text after it. -/
structure MainSplit where
  before : String
  docNodes : Option (List Node)
  after : String

/-- One step of the walk over the main source's top-level node list
(`main.py` lines 83–91): a node containing the `document` environment sets
`docNodes` and is skipped (`continue`); other nodes accumulate verbatim
into `before` while the environment has not been seen, and into `after`
afterwards. -/
def mainScanStep (acc : MainSplit) (node : Node) : MainSplit :=
  match find_env_node node "document" with
  | some d => { acc with docNodes := some d.nodelist }
  | none =>
    match acc.docNodes with
    | none => { acc with before := acc.before ++ latex_verbatim node }
    | some _ => { acc with after := acc.after ++ latex_verbatim node }

/-- The whole walk (`main.py` lines 79–92): `after` is seeded with the
re-synthesized closing marker, and the re-synthesized opening marker is
appended to `before` after the loop (line 92). -/
def mainScan (nodes : List Node) : MainSplit :=
  let s := nodes.foldl mainScanStep
    { before := "", docNodes := none, after := "\n\\end{document}" }
  { s with before := s.before ++ "\n\\begin{document}\n" }

/-- Modelled from the spec (§9): when the `document` environment was not
found, `document_nodes` is `None` and the inner segment is left empty;
otherwise the nodes are flattened to text. -/
def getTextFromOptNodes : Option (List Node) → String
  | none => ""
  | some ns => get_text_from_nodes ns

/-- The chunk loop of `translate` (`main.py` lines 26–41): for each chunk,
call the completion client on the built messages; on success increment
`translated_chunks`, fire the chunk-complete callback (snapshotting the
counters as they are at that moment), append the response, and accumulate
the extracted payload; on client failure abort, keeping the state mutated
by earlier chunks. -/
def translateLoop (ctx : Collaborators) (client : Client) :
    List String → List String → St → Option (List String) × St
  | [], acc, st => (some acc, st)
  | chunk :: rest, acc, st =>
    match client st.ncalls (ctx.create_messages chunk) with
    | none => (none, { st with ncalls := st.ncalls + 1 })
    | some response =>
      let st1 : St := { st with
        ncalls := st.ncalls + 1
        translated_chunks := st.translated_chunks + 1 }
      let st2 : St := { st1 with
        trace := st1.trace ++
          [Event.chunkCb st1.translated_chunks st1.translation_responses] }
      let st3 : St := { st2 with
        translation_responses := st2.translation_responses ++ [response] }
      translateLoop ctx client rest (acc ++ [extract response.content]) st3

/-- `translate` (`main.py` lines 23–41): split the text, run the chunk
loop, and join the extracted chunk payloads with no separator.  A client
failure on any chunk yields no output at all (`none`). -/
def translate (ctx : Collaborators) (client : Client) (text : String)
    (st : St) : Option String × St :=
  match translateLoop ctx client (ctx.split_text text) [] st with
  | (some pieces, st') => (some (String.join pieces), st')
  | (none, st') => (none, st')

/-- `estimate_tokens_cost` (`main.py` lines 43–52): split the text, sum the
token counts of each chunk's built prompt messages, add the token count of
the raw text, and return the chunk count with the total.  No completion
client is involved (the definition takes none). -/
def estimate_tokens_cost (ctx : Collaborators) (text : String) : Nat × Nat :=
  let text_chunks := ctx.split_text text
  let result_tokens := text_chunks.foldl
    (fun acc chunk => acc + ctx.count_tokens_messages (ctx.create_messages chunk)) 0
  let translation_tokens := ctx.count_tokens_text text
  (text_chunks.length, result_tokens + translation_tokens)

/-- `get_total_usage` (`main.py` lines 120–131).  The statement-by-statement
`try/except KeyError` semantics is kept: a missing `usage` record or a
missing `prompt_tokens` field skips the response entirely; a missing
`completion_tokens` field aborts after `prompt_tokens` was already added.
(The `translation_responses is None` guard of line 121 is unreachable in
this embedding: the field is initialized to `[]` and reset to `[]`.) -/
def get_total_usage (responses : List Response) : Nat × Nat :=
  responses.foldl
    (fun acc r =>
      match r.usage with
      | none => acc
      | some u =>
        match u.prompt_tokens with
        | none => acc
        | some p =>
          match u.completion_tokens with
          | none => (acc.1 + p, acc.2)
          | some c => (acc.1 + p, acc.2 + c))
    (0, 0)

/-- Errors that can abort `translate_project`: a completion-client failure,
or the main source key missing from the loaded sources (a `KeyError` at
line 83). -/
inductive RunErr where
  | clientError
  | missingSource
  deriving DecidableEq

/-- Result of a `translate_project` run: final instance state plus the
error that aborted the run, if any. -/
structure ProjectOut where
  err : Option RunErr
  st : St
  deriving DecidableEq

/-- The auxiliary-source loop of `translate_project` (`main.py` lines
106–117): iterate the declared key order, skip the main source, fire the
ongoing-file callback, translate the flattened source, and write the
output artifact `translated_<name>` only after the body's translation
succeeded. -/
def auxLoop (ctx : Collaborators) (client : Client) (mainName : String) :
    List (String × List Node) → St → ProjectOut
  | [], st => { err := none, st := st }
  | (name, nodes) :: rest, st =>
    if name = mainName then auxLoop ctx client mainName rest st
    else
      match translate ctx client (get_text_from_nodes nodes)
          { st with trace := st.trace ++ [Event.ongoing name] } with
      | (none, st2) => { err := some RunErr.clientError, st := st2 }
      | (some translated, st2) =>
        auxLoop ctx client mainName rest
          { st2 with trace := st2.trace ++
              [Event.write ("translated_" ++ name) translated] }

/-- `translate_project` (`main.py` lines 75–118): reset the Translation Run
State (lines 76–77; `ncalls` and `trace` are per-run instrumentation and
start fresh as well), fire the ongoing-file callback for the main source,
walk its top-level nodes, translate the `document` environment's inner
text, write the reconstructed main output, then process the auxiliary
sources. -/
def translate_project (ctx : Collaborators) (client : Client)
    (source : LatexSourcesLoader) (prior : St) : ProjectOut :=
  match lookupSource source.sources source.main_source with
  | none =>
    { err := some RunErr.missingSource
      st := { prior with
        translation_responses := []
        translated_chunks := 0
        ncalls := 0
        trace := [Event.ongoing source.main_source] } }
  | some nodes =>
    match translate ctx client (getTextFromOptNodes (mainScan nodes).docNodes)
        { prior with
          translation_responses := []
          translated_chunks := 0
          ncalls := 0
          trace := [Event.ongoing source.main_source] } with
    | (none, st2) => { err := some RunErr.clientError, st := st2 }
    | (some translated, st2) =>
      auxLoop ctx client source.main_source source.sources
        { st2 with trace := st2.trace ++
            [Event.write ("translated_" ++ source.main_source)
              ((mainScan nodes).before ++ translated ++ (mainScan nodes).after)] }

/-- The auxiliary bodies of a project, in declared key order with the main
source skipped. -/
def auxOrder (mainName : String) (l : List (String × List Node)) : List String :=
  (l.map Prod.fst).filter (fun k => k != mainName)

/-- The bodies of a project in processing order: main source first, then
the auxiliary sources in declared key order. -/
def bodyOrder (source : LatexSourcesLoader) : List String :=
  source.main_source :: auxOrder source.main_source source.sources

/-- Is the event a chunk-complete callback? -/
def Event.isChunk : Event → Bool
  | Event.chunkCb _ _ => true
  | _ => false

/-- A trace fragment consisting solely of chunk-complete callbacks. -/
def chunkOnly (l : List Event) : Prop := ∀ e ∈ l, e.isChunk = true

/-- The identifier carried by an ongoing-file event. -/
def ongoingName : Event → Option String
  | Event.ongoing n => some n
  | _ => none

/-- The artifact name carried by a write event. -/
def writeName : Event → Option String
  | Event.write n _ => some n
  | _ => none

/-- The ongoing-file callbacks of a trace, in order. -/
def ongoingNames (l : List Event) : List String := l.filterMap ongoingName

/-- The artifact names written during a trace, in order. -/
def writeNames (l : List Event) : List String := l.filterMap writeName

/-- The trace segment of one fully translated body `name`: its ongoing-file
callback, then only chunk-complete callbacks, then the write of its output
artifact. -/
def bodySeg (name : String) (seg : List Event) : Prop :=
  ∃ mid content, chunkOnly mid ∧
    seg = Event.ongoing name :: (mid ++ [Event.write ("translated_" ++ name) content])

/-- Concrete collaborators for witnesses: one chunk per nonempty text. -/
def echoCollab : Collaborators :=
  { split_text := fun t => if t = "" then [] else [t]
    create_messages := fun chunk => [("user", chunk)]
    count_tokens_text := fun t => t.length
    count_tokens_messages := fun ms => (ms.map (fun m => m.2.length)).sum }

/-- Concrete collaborators for witnesses: two chunks per nonempty text. -/
def splitTwoCollab : Collaborators :=
  { echoCollab with split_text := fun t => if t = "" then [] else [t, t] }

/-- Concrete completion client for witnesses: always succeeds with a fenced
response; usage varies with the call index so responses are distinct. -/
def okClient : Client :=
  fun n _ => some { content := "```ok```"
                    usage := some { prompt_tokens := some (n + 1)
                                    completion_tokens := some 1 } }

/-- Concrete completion client for witnesses: the first call succeeds, all
later calls fail. -/
def failSecondClient : Client :=
  fun n _ => if n = 0 then some { content := "```ok```", usage := none } else none

/-- A concrete `document` environment node for witnesses. -/
def docEnvNode : Node :=
  Node.env "document" "\\begin{document}" "\\end{document}" [Node.text "hello world"]

/-- A concrete three-source project for witnesses. -/
def sampleLoader : LatexSourcesLoader :=
  { sources := [("m.tex", [Node.text "\\documentclass{article}\n", docEnvNode]),
                ("a.tex", [Node.text "aux text"]),
                ("b.tex", [Node.text "more aux"])]
    main_source := "m.tex" }

theorem openBody_tb (r : List Char) :
    openBody (btick :: btick :: btick :: r) = some r := by
  simp [openBody]

theorem openBody_ne (c : Char) (l : List Char) (h : c ≠ btick) :
    openBody (c :: l) = none := by
  cases l with
  | nil => rfl
  | cons c2 l2 =>
    cases l2 with
    | nil => rfl
    | cons c3 l3 => simp [openBody, h]

theorem openBody_some {l r : List Char} (h : openBody l = some r) :
    l = btick :: btick :: btick :: r := by
  match l with
  | [] => simp [openBody] at h
  | [c] => simp [openBody] at h
  | [c1, c2] => simp [openBody] at h
  | c1 :: c2 :: c3 :: rest =>
    by_cases hc : c1 = btick ∧ c2 = btick ∧ c3 = btick
    · obtain ⟨h1, h2, h3⟩ := hc
      subst h1; subst h2; subst h3
      simp [openBody] at h
      subst h
      rfl
    · simp [openBody, hc] at h

theorem scanClose_finds :
    ∀ (xs : List Char) (acc r : List Char), xs ≠ [] → (∀ x ∈ xs, x ≠ btick) →
      scanClose acc (xs ++ btick :: btick :: btick :: r) =
        some (acc.reverse ++ xs) := by
  intro xs
  induction xs with
  | nil => intro acc r h _; exact absurd rfl h
  | cons x ys ih =>
    intro acc r _ hx
    cases ys with
    | nil =>
      rw [List.cons_append, List.nil_append, scanClose, if_pos (by rw [openBody_tb]; rfl)]
      simp
    | cons y ys' =>
      have hy : y ≠ btick := hx y (by simp)
      have hrest : openBody ((y :: ys') ++ btick :: btick :: btick :: r) = none := by
        rw [List.cons_append]
        exact openBody_ne y (ys' ++ btick :: btick :: btick :: r) hy
      rw [List.cons_append, scanClose, hrest]
      simp only [Option.isSome_none, Bool.false_eq_true, if_false]
      rw [ih (x :: acc) r (by simp) (fun z hz => hx z (by simp [hz]))]
      simp

theorem searchFence_noopen {c : Char} {rest : List Char}
    (h : openBody (c :: rest) = none) :
    searchFence (c :: rest) = searchFence rest := by
  rw [searchFence, h]

theorem searchFence_close {c : Char} {rest body g : List Char}
    (hop : openBody (c :: rest) = some body) (hsc : scanClose [] body = some g) :
    searchFence (c :: rest) = some g := by
  have h1 : searchFence (c :: rest) =
      (match scanClose [] body with
       | some g' => some g'
       | none => searchFence rest) := by
    rw [searchFence, hop]
  rw [h1, hsc]

theorem searchFence_noclose {c : Char} {rest body : List Char}
    (hop : openBody (c :: rest) = some body) (hsc : scanClose [] body = none) :
    searchFence (c :: rest) = searchFence rest := by
  have h1 : searchFence (c :: rest) =
      (match scanClose [] body with
       | some g' => some g'
       | none => searchFence rest) := by
    rw [searchFence, hop]
  rw [h1, hsc]

theorem searchFence_skip (c : Char) (l : List Char) (h : c ≠ btick) :
    searchFence (c :: l) = searchFence l :=
  searchFence_noopen (openBody_ne c l h)

theorem searchFence_found :
    ∀ (a : List Char), (∀ x ∈ a, x ≠ btick) →
      ∀ (g r : List Char), g ≠ [] → (∀ x ∈ g, x ≠ btick) →
        searchFence (a ++ btick :: btick :: btick ::
          (g ++ btick :: btick :: btick :: r)) = some g := by
  intro a
  induction a with
  | nil =>
    intro _ g r hg0 hg
    have hsc : scanClose [] (g ++ btick :: btick :: btick :: r) = some g := by
      rw [scanClose_finds g [] r hg0 hg]
      simp
    simpa using searchFence_close (openBody_tb (g ++ btick :: btick :: btick :: r)) hsc
  | cons c a' ih =>
    intro ha g r hg0 hg
    have hc : c ≠ btick := ha c (by simp)
    rw [List.cons_append, searchFence_skip c _ hc]
    exact ih (fun z hz => ha z (by simp [hz])) g r hg0 hg

theorem stripTB_id : ∀ (l : List Char), (∀ x ∈ l, x ≠ btick) → stripTB l = l := by
  intro l
  induction l using stripTB.induct with
  | case1 => intro _; rfl
  | case2 c => intro _; rfl
  | case3 c1 c2 => intro _; rfl
  | case4 c1 c2 c3 rest hc ih =>
    intro h
    exact absurd hc.1 (h c1 (by simp))
  | case5 c1 c2 c3 rest hc ih =>
    intro h
    rw [stripTB, if_neg hc]
    rw [ih (fun z hz => h z (by simp at hz; rcases hz with h1 | h1 | h1 <;> simp [h1]))]

theorem scanClose_decomp :
    ∀ (body acc g : List Char), scanClose acc body = some g →
      ∃ pre r2, pre ≠ [] ∧ body = pre ++ btick :: btick :: btick :: r2 := by
  intro body
  induction body with
  | nil => intro acc g h; simp [scanClose] at h
  | cons c rest ih =>
    intro acc g h
    rw [scanClose] at h
    by_cases hb : (openBody rest).isSome
    · rw [if_pos hb] at h
      obtain ⟨r2, hr2⟩ := Option.isSome_iff_exists.mp hb
      refine ⟨[c], r2, by simp, ?_⟩
      simp [openBody_some hr2]
    · rw [if_neg hb] at h
      obtain ⟨pre', r2, hp, he⟩ := ih (c :: acc) g h
      exact ⟨c :: pre', r2, by simp, by simp [he]⟩

theorem searchFence_decomp :
    ∀ (l g : List Char), searchFence l = some g →
      ∃ a p b, p ≠ [] ∧
        l = a ++ btick :: btick :: btick :: (p ++ btick :: btick :: btick :: b) := by
  intro l
  induction l with
  | nil => intro g h; simp [searchFence] at h
  | cons c rest ih =>
    intro g h
    cases hop : openBody (c :: rest) with
    | some body =>
      cases hsc : scanClose [] body with
      | some g' =>
        obtain ⟨pre, r2, hp, he⟩ := scanClose_decomp body [] g' hsc
        refine ⟨[], pre, r2, hp, ?_⟩
        simp [openBody_some hop, he]
      | none =>
        rw [searchFence_noclose hop hsc] at h
        obtain ⟨a, p, b, hp, he⟩ := ih g h
        exact ⟨c :: a, p, b, hp, by simp [he]⟩
    | none =>
      rw [searchFence_noopen hop] at h
      obtain ⟨a, p, b, hp, he⟩ := ih g h
      exact ⟨c :: a, p, b, hp, by simp [he]⟩

theorem string_toList_append (s t : String) :
    (s ++ t).toList = s.toList ++ t.toList := by
  simp [String.toList, String.data_append]

theorem string_mk_toList (s : String) : String.mk s.toList = s := by
  cases s
  rfl

theorem string_toList_eq_nil {s : String} (h : s.toList = []) : s = "" := by
  cases s with
  | mk data =>
    simp [String.toList] at h
    subst h
    rfl

theorem tb_string_toList : ("```" : String).toList = [btick, btick, btick] := by
  decide

theorem extract_of_found {raw : String} {g : List Char}
    (h : searchFence raw.toList = some g) :
    extract raw = String.mk (stripTB g) := by
  unfold extract
  rw [h]

theorem extract_of_none {raw : String} (h : searchFence raw.toList = none) :
    extract raw = String.mk (stripTB raw.toList) := by
  unfold extract
  rw [h]

/-- C2: for every payload string containing no backtick characters,
extracting the translated text from a response equal to
`"```" + payload + "```"` returns exactly the payload. -/
theorem fence_roundtrip (payload : String)
    (h : ∀ x ∈ payload.toList, x ≠ btick) :
    extract ("```" ++ payload ++ "```") = payload := by
  cases hp : payload.toList with
  | nil =>
    have hpay : payload = "" := string_toList_eq_nil hp
    subst hpay
    decide
  | cons c cs =>
    have hnb : ∀ x ∈ (c :: cs), x ≠ btick := by
      rw [← hp]; exact h
    have hlist : ("```" ++ payload ++ "```").toList =
        [] ++ btick :: btick :: btick ::
          ((c :: cs) ++ btick :: btick :: btick :: []) := by
      rw [string_toList_append, string_toList_append, tb_string_toList, hp]
      simp
    have hs : searchFence (("```" ++ payload ++ "```").toList) = some (c :: cs) := by
      rw [hlist]
      exact searchFence_found [] (by simp) (c :: cs) [] (by simp) hnb
    rw [extract_of_found hs, stripTB_id _ hnb, ← hp, string_mk_toList]

/-- Witness for C2 on a concrete multi-line payload. -/
theorem fence_roundtrip_witness :
    extract ("```" ++ "hola\nmundo" ++ "```") = "hola\nmundo" :=
  fence_roundtrip "hola\nmundo" (by decide)

/-- C10: when the raw response contains several disjoint fenced regions,
extraction returns only the content of the first (leftmost, non-greedy)
fenced region; all later text — including further fenced regions inside
`b` — is discarded. -/
theorem first_fence_only (a g b : String)
    (ha : ∀ x ∈ a.toList, x ≠ btick) (hg0 : g ≠ "")
    (hg : ∀ x ∈ g.toList, x ≠ btick) :
    extract (a ++ "```" ++ g ++ "```" ++ b) = g := by
  have hgl : g.toList ≠ [] := fun hnil => hg0 (string_toList_eq_nil hnil)
  have hlist : (a ++ "```" ++ g ++ "```" ++ b).toList =
      a.toList ++ btick :: btick :: btick ::
        (g.toList ++ btick :: btick :: btick :: b.toList) := by
    rw [string_toList_append, string_toList_append, string_toList_append,
      string_toList_append, tb_string_toList]
    simp
  have hs : searchFence ((a ++ "```" ++ g ++ "```" ++ b).toList) = some g.toList := by
    rw [hlist]
    exact searchFence_found a.toList ha g.toList b.toList hgl hg
  rw [extract_of_found hs, stripTB_id _ hg, string_mk_toList]

/-- Witness for C10: two disjoint fenced regions, only the first survives. -/
theorem first_fence_only_witness :
    extract ("pre " ++ "```" ++ "first" ++ "```" ++ " mid ```second``` post") =
      "first" :=
  first_fence_only "pre " "first" " mid ```second``` post"
    (by decide) (by decide) (by decide)

theorem fence_decomp_has_btick {l a p b : List Char}
    (he : l = a ++ btick :: btick :: btick :: (p ++ btick :: btick :: btick :: b)) :
    btick ∈ l := by
  subst he
  simp

/-- C6: when the raw response admits no multi-line triple-backtick fenced
region (no decomposition around two fence markers with a non-empty body),
extraction falls back to the raw text with all triple-backtick markers
removed; being a total function, it raises no error. -/
theorem missing_fence_fallback (raw : String)
    (h : ¬ ∃ a p b, p ≠ [] ∧ raw.toList =
        a ++ btick :: btick :: btick :: (p ++ btick :: btick :: btick :: b)) :
    extract raw = String.mk (stripTB raw.toList) := by
  cases hs : searchFence raw.toList with
  | some g => exact absurd (searchFence_decomp raw.toList g hs) h
  | none => exact extract_of_none hs

/-- Witness for C6 on a concrete fence-free response. -/
theorem missing_fence_fallback_witness :
    extract "raw text without fence" = "raw text without fence" := by
  have h : ¬ ∃ a p b, p ≠ [] ∧ ("raw text without fence").toList =
      a ++ btick :: btick :: btick :: (p ++ btick :: btick :: btick :: b) := by
    rintro ⟨a, p, b, -, he⟩
    exact absurd (fence_decomp_has_btick he) (by decide)
  rw [missing_fence_fallback "raw text without fence" h]
  decide

theorem usage_foldl_aux :
    ∀ (rs : List Response),
      (∀ r ∈ rs, r.usage = none ∨
        ∃ p c, r.usage = some { prompt_tokens := some p, completion_tokens := some c }) →
      ∀ (a b : Nat),
        rs.foldl
          (fun acc r =>
            match r.usage with
            | none => acc
            | some u =>
              match u.prompt_tokens with
              | none => acc
              | some p =>
                match u.completion_tokens with
                | none => (acc.1 + p, acc.2)
                | some c => (acc.1 + p, acc.2 + c))
          (a, b) =
        (a + (rs.filterMap (fun r => r.usage.bind Usage.prompt_tokens)).sum,
         b + (rs.filterMap (fun r => r.usage.bind Usage.completion_tokens)).sum) := by
  intro rs
  induction rs with
  | nil => intro _ a b; simp
  | cons r rest ih =>
    intro h a b
    rcases h r (by simp) with hu | ⟨p, c, hu⟩
    · rw [List.foldl_cons]
      have hstep : (match r.usage with
          | none => (a, b)
          | some u =>
            match u.prompt_tokens with
            | none => (a, b)
            | some p =>
              match u.completion_tokens with
              | none => ((a, b).1 + p, (a, b).2)
              | some c => ((a, b).1 + p, (a, b).2 + c)) = (a, b) := by
        rw [hu]
      rw [hstep, ih (fun z hz => h z (by simp [hz])) a b]
      simp [List.filterMap_cons, hu]
    · rw [List.foldl_cons]
      have hstep : (match r.usage with
          | none => (a, b)
          | some u =>
            match u.prompt_tokens with
            | none => (a, b)
            | some p =>
              match u.completion_tokens with
              | none => ((a, b).1 + p, (a, b).2)
              | some c => ((a, b).1 + p, (a, b).2 + c)) = (a + p, b + c) := by
        rw [hu]
      rw [hstep, ih (fun z hz => h z (by simp [hz])) (a + p) (b + c)]
      simp [List.filterMap_cons, hu, Nat.add_assoc]

/-- C3: `get_total_usage` sums `prompt_tokens` and `completion_tokens` over
all recorded responses, skipping (not failing on) any response whose usage
record is absent; responses either carry a full usage record or none at
all, as in the specification's scenario. -/
theorem usage_aggregation (rs : List Response)
    (h : ∀ r ∈ rs, r.usage = none ∨
      ∃ p c, r.usage = some { prompt_tokens := some p, completion_tokens := some c }) :
    get_total_usage rs =
      ((rs.filterMap (fun r => r.usage.bind Usage.prompt_tokens)).sum,
       (rs.filterMap (fun r => r.usage.bind Usage.completion_tokens)).sum) := by
  have := usage_foldl_aux rs h 0 0
  unfold get_total_usage
  simpa using this

/-- Witness for C3: the specification's example
`[{prompt:10,completion:5}, {no usage}, {prompt:3,completion:2}]`
aggregates to `(13, 7)`. -/
theorem usage_aggregation_witness :
    get_total_usage
      [⟨"", some ⟨some 10, some 5⟩⟩, ⟨"", none⟩, ⟨"", some ⟨some 3, some 2⟩⟩] =
      (13, 7) := by
  rw [usage_aggregation _ ?_]
  · decide
  · intro r hr
    simp only [List.mem_cons, List.not_mem_nil, or_false] at hr
    rcases hr with h | h | h
    · exact Or.inr ⟨10, 5, by rw [h]⟩
    · exact Or.inl (by rw [h])
    · exact Or.inr ⟨3, 2, by rw [h]⟩

theorem foldl_add_eq_sum {α : Type} (f : α → Nat) :
    ∀ (l : List α) (n : Nat),
      l.foldl (fun acc c => acc + f c) n = n + (l.map f).sum := by
  intro l
  induction l with
  | nil => intro n; simp
  | cons c rest ih =>
    intro n
    rw [List.foldl_cons, ih (n + f c)]
    simp [Nat.add_assoc]

/-- C8: `estimate_tokens_cost` returns the pair (number of chunks the
splitter produces, sum over the chunks of the token count of each chunk's
built prompt messages plus the token count of the raw input text); the
definition takes no completion client, so none is ever called. -/
theorem estimate_tokens_cost_spec (ctx : Collaborators) (text : String) :
    estimate_tokens_cost ctx text =
      ((ctx.split_text text).length,
       ((ctx.split_text text).map
          (fun chunk => ctx.count_tokens_messages (ctx.create_messages chunk))).sum +
        ctx.count_tokens_text text) := by
  show ((ctx.split_text text).length,
      (ctx.split_text text).foldl
        (fun acc chunk => acc + ctx.count_tokens_messages (ctx.create_messages chunk)) 0 +
        ctx.count_tokens_text text) = _
  rw [foldl_add_eq_sum]
  simp

/-- C9: at the start of every top-level `translate_project` invocation the
Translation Run State is reset — `translated_chunks` to 0 and
`translation_responses` to the empty list — so the whole run is independent
of any state accumulated by previous calls on the same translator
instance. -/
theorem run_state_reset (ctx : Collaborators) (client : Client)
    (source : LatexSourcesLoader) (prior : St) :
    translate_project ctx client source prior =
      translate_project ctx client source initSt := rfl

theorem string_data_ext {s t : String} (h : s.data = t.data) : s = t :=
  String.ext h

theorem string_append_assoc (a b c : String) : a ++ b ++ c = a ++ (b ++ c) := by
  apply string_data_ext
  simp [String.data_append, List.append_assoc]

theorem string_append_left_cancel {a b c : String} (h : a ++ b = a ++ c) : b = c := by
  apply string_data_ext
  have hd : (a ++ b).data = (a ++ c).data := by rw [h]
  rw [String.data_append, String.data_append] at hd
  exact List.append_cancel_left hd

theorem translateLoop_nil (ctx : Collaborators) (client : Client)
    (acc : List String) (st : St) :
    translateLoop ctx client [] acc st = (some acc, st) := rfl

theorem translateLoop_cons_fail {ctx : Collaborators} {client : Client}
    {chunk : String} {rest acc : List String} {st : St}
    (hc : client st.ncalls (ctx.create_messages chunk) = none) :
    translateLoop ctx client (chunk :: rest) acc st =
      (none, { st with ncalls := st.ncalls + 1 }) := by
  rw [translateLoop, hc]

theorem translateLoop_cons_ok {ctx : Collaborators} {client : Client}
    {chunk : String} {rest acc : List String} {st : St} {response : Response}
    (hc : client st.ncalls (ctx.create_messages chunk) = some response) :
    translateLoop ctx client (chunk :: rest) acc st =
      translateLoop ctx client rest (acc ++ [extract response.content])
        { translation_responses := st.translation_responses ++ [response]
          translated_chunks := st.translated_chunks + 1
          ncalls := st.ncalls + 1
          trace := st.trace ++
            [Event.chunkCb (st.translated_chunks + 1) st.translation_responses] } := by
  rw [translateLoop, hc]

theorem translate_snd (ctx : Collaborators) (client : Client) (text : String)
    (st : St) :
    (translate ctx client text st).2 =
      (translateLoop ctx client (ctx.split_text text) [] st).2 := by
  unfold translate
  rcases translateLoop ctx client (ctx.split_text text) [] st with ⟨o, st'⟩
  cases o <;> rfl

theorem translate_ok {ctx : Collaborators} {client : Client} {text : String}
    {st st' : St} {pieces : List String}
    (h : translateLoop ctx client (ctx.split_text text) [] st = (some pieces, st')) :
    translate ctx client text st = (some (String.join pieces), st') := by
  unfold translate
  rw [h]

theorem translate_fail {ctx : Collaborators} {client : Client} {text : String}
    {st st' : St}
    (h : translateLoop ctx client (ctx.split_text text) [] st = (none, st')) :
    translate ctx client text st = (none, st') := by
  unfold translate
  rw [h]

theorem translateLoop_trace (ctx : Collaborators) (client : Client) :
    ∀ (chunks acc : List String) (st : St),
      ∃ tail, chunkOnly tail ∧
        (translateLoop ctx client chunks acc st).2.trace = st.trace ++ tail := by
  intro chunks
  induction chunks with
  | nil =>
    intro acc st
    exact ⟨[], by simp [chunkOnly], by simp [translateLoop_nil]⟩
  | cons chunk rest ih =>
    intro acc st
    cases hc : client st.ncalls (ctx.create_messages chunk) with
    | none =>
      refine ⟨[], by simp [chunkOnly], ?_⟩
      rw [translateLoop_cons_fail hc]
      simp
    | some response =>
      obtain ⟨tail, hco, htr⟩ := ih (acc ++ [extract response.content])
        { translation_responses := st.translation_responses ++ [response]
          translated_chunks := st.translated_chunks + 1
          ncalls := st.ncalls + 1
          trace := st.trace ++
            [Event.chunkCb (st.translated_chunks + 1) st.translation_responses] }
      refine ⟨Event.chunkCb (st.translated_chunks + 1) st.translation_responses :: tail,
        ?_, ?_⟩
      · intro e he
        rcases List.mem_cons.mp he with h | h
        · rw [h]; rfl
        · exact hco e h
      · rw [translateLoop_cons_ok hc, htr]
        simp

theorem translate_trace (ctx : Collaborators) (client : Client) (text : String)
    (st : St) :
    ∃ tail, chunkOnly tail ∧
      (translate ctx client text st).2.trace = st.trace ++ tail := by
  obtain ⟨tail, hco, htr⟩ := translateLoop_trace ctx client (ctx.split_text text) [] st
  exact ⟨tail, hco, by rw [translate_snd]; exact htr⟩

theorem auxLoop_nil (ctx : Collaborators) (client : Client) (mainName : String)
    (st : St) :
    auxLoop ctx client mainName [] st = { err := none, st := st } := rfl

theorem auxLoop_cons_skip {ctx : Collaborators} {client : Client}
    {mainName name : String} {nodes : List Node}
    {rest : List (String × List Node)} {st : St} (h : name = mainName) :
    auxLoop ctx client mainName ((name, nodes) :: rest) st =
      auxLoop ctx client mainName rest st := by
  rw [auxLoop, if_pos h]

theorem auxLoop_cons_ne {ctx : Collaborators} {client : Client}
    {mainName name : String} {nodes : List Node}
    {rest : List (String × List Node)} {st : St} (h : ¬ name = mainName) :
    auxLoop ctx client mainName ((name, nodes) :: rest) st =
      (match translate ctx client (get_text_from_nodes nodes)
          { st with trace := st.trace ++ [Event.ongoing name] } with
       | (none, st2) => { err := some RunErr.clientError, st := st2 }
       | (some translated, st2) =>
         auxLoop ctx client mainName rest
           { st2 with trace := st2.trace ++
               [Event.write ("translated_" ++ name) translated] }) := by
  rw [auxLoop, if_neg h]

theorem auxLoop_cons_fail {ctx : Collaborators} {client : Client}
    {mainName name : String} {nodes : List Node}
    {rest : List (String × List Node)} {st st2 : St} (h : ¬ name = mainName)
    (ht : translate ctx client (get_text_from_nodes nodes)
        { st with trace := st.trace ++ [Event.ongoing name] } = (none, st2)) :
    auxLoop ctx client mainName ((name, nodes) :: rest) st =
      { err := some RunErr.clientError, st := st2 } := by
  rw [auxLoop_cons_ne h, ht]

theorem auxLoop_cons_ok {ctx : Collaborators} {client : Client}
    {mainName name : String} {nodes : List Node}
    {rest : List (String × List Node)} {st st2 : St} {t : String}
    (h : ¬ name = mainName)
    (ht : translate ctx client (get_text_from_nodes nodes)
        { st with trace := st.trace ++ [Event.ongoing name] } = (some t, st2)) :
    auxLoop ctx client mainName ((name, nodes) :: rest) st =
      auxLoop ctx client mainName rest
        { st2 with trace := st2.trace ++
            [Event.write ("translated_" ++ name) t] } := by
  rw [auxLoop_cons_ne h, ht]

theorem translate_project_none {ctx : Collaborators} {client : Client}
    {source : LatexSourcesLoader} {prior : St}
    (h : lookupSource source.sources source.main_source = none) :
    translate_project ctx client source prior =
      { err := some RunErr.missingSource
        st := { translation_responses := [], translated_chunks := 0, ncalls := 0,
                trace := [Event.ongoing source.main_source] } } := by
  unfold translate_project
  rw [h]

theorem translate_project_eq_some {ctx : Collaborators} {client : Client}
    {source : LatexSourcesLoader} {prior : St} {nodes : List Node}
    (h : lookupSource source.sources source.main_source = some nodes) :
    translate_project ctx client source prior =
      (match translate ctx client (getTextFromOptNodes (mainScan nodes).docNodes)
          { translation_responses := [], translated_chunks := 0, ncalls := 0,
            trace := [Event.ongoing source.main_source] } with
       | (none, st2) => { err := some RunErr.clientError, st := st2 }
       | (some translated, st2) =>
         auxLoop ctx client source.main_source source.sources
           { st2 with trace := st2.trace ++
               [Event.write ("translated_" ++ source.main_source)
                 ((mainScan nodes).before ++ translated ++ (mainScan nodes).after)] }) := by
  unfold translate_project
  rw [h]

theorem translate_project_fail {ctx : Collaborators} {client : Client}
    {source : LatexSourcesLoader} {prior : St} {nodes : List Node} {st2 : St}
    (h : lookupSource source.sources source.main_source = some nodes)
    (ht : translate ctx client (getTextFromOptNodes (mainScan nodes).docNodes)
        { translation_responses := [], translated_chunks := 0, ncalls := 0,
          trace := [Event.ongoing source.main_source] } = (none, st2)) :
    translate_project ctx client source prior =
      { err := some RunErr.clientError, st := st2 } := by
  rw [translate_project_eq_some h, ht]

theorem translate_project_ok {ctx : Collaborators} {client : Client}
    {source : LatexSourcesLoader} {prior : St} {nodes : List Node} {st2 : St}
    {t : String}
    (h : lookupSource source.sources source.main_source = some nodes)
    (ht : translate ctx client (getTextFromOptNodes (mainScan nodes).docNodes)
        { translation_responses := [], translated_chunks := 0, ncalls := 0,
          trace := [Event.ongoing source.main_source] } = (some t, st2)) :
    translate_project ctx client source prior =
      auxLoop ctx client source.main_source source.sources
        { st2 with trace := st2.trace ++
            [Event.write ("translated_" ++ source.main_source)
              ((mainScan nodes).before ++ t ++ (mainScan nodes).after)] } := by
  rw [translate_project_eq_some h, ht]

theorem string_nil_append (s : String) : "" ++ s = s := by
  apply string_data_ext
  simp [String.data_append]

theorem string_append_nil (s : String) : s ++ "" = s := by
  apply string_data_ext
  simp [String.data_append]

theorem mainScan_pre :
    ∀ (pre : List Node) (b a : String),
      (∀ n ∈ pre, find_env_node n "document" = none) →
      pre.foldl mainScanStep { before := b, docNodes := none, after := a } =
        { before := b ++ verbatimList pre, docNodes := none, after := a } := by
  intro pre
  induction pre with
  | nil =>
    intro b a _
    simp [verbatimList, string_append_nil]
  | cons n rest ih =>
    intro b a h
    rw [List.foldl_cons]
    have hstep : mainScanStep { before := b, docNodes := none, after := a } n =
        { before := b ++ latex_verbatim n, docNodes := none, after := a } := by
      unfold mainScanStep
      rw [h n (by simp)]
    rw [hstep, ih (b ++ latex_verbatim n) a (fun z hz => h z (by simp [hz]))]
    simp [verbatimList, string_append_assoc]

theorem mainScan_post :
    ∀ (post : List Node) (b a : String) (ns : List Node),
      (∀ n ∈ post, find_env_node n "document" = none) →
      post.foldl mainScanStep { before := b, docNodes := some ns, after := a } =
        { before := b, docNodes := some ns, after := a ++ verbatimList post } := by
  intro post
  induction post with
  | nil =>
    intro b a ns _
    simp [verbatimList, string_append_nil]
  | cons n rest ih =>
    intro b a ns h
    rw [List.foldl_cons]
    have hstep : mainScanStep { before := b, docNodes := some ns, after := a } n =
        { before := b, docNodes := some ns, after := a ++ latex_verbatim n } := by
      unfold mainScanStep
      rw [h n (by simp)]
    rw [hstep, ih b (a ++ latex_verbatim n) ns (fun z hz => h z (by simp [hz]))]
    simp [verbatimList, string_append_assoc]

theorem find_env_node_document (bm em : String) (inner : List Node) :
    find_env_node (Node.env "document" bm em inner) "document" =
      some (Node.env "document" bm em inner) := by
  rw [find_env_node]
  simp

theorem mainScan_split (pre post inner : List Node) (bm em : String)
    (hpre : ∀ n ∈ pre, find_env_node n "document" = none)
    (hpost : ∀ n ∈ post, find_env_node n "document" = none) :
    mainScan (pre ++ Node.env "document" bm em inner :: post) =
      { before := verbatimList pre ++ "\n\\begin{document}\n"
        docNodes := some inner
        after := "\n\\end{document}" ++ verbatimList post } := by
  simp only [mainScan]
  rw [List.foldl_append, mainScan_pre pre _ _ hpre, List.foldl_cons]
  have hstep : mainScanStep
      { before := "" ++ verbatimList pre, docNodes := none, after := "\n\\end{document}" }
      (Node.env "document" bm em inner) =
      { before := "" ++ verbatimList pre, docNodes := some inner,
        after := "\n\\end{document}" } := by
    unfold mainScanStep
    rw [find_env_node_document]
    rfl
  rw [hstep, mainScan_post post _ _ inner hpost]
  simp [string_nil_append]

theorem auxLoop_trace_extends (ctx : Collaborators) (client : Client)
    (mainName : String) :
    ∀ (l : List (String × List Node)) (st : St),
      ∃ tail, (auxLoop ctx client mainName l st).st.trace = st.trace ++ tail := by
  intro l
  induction l with
  | nil => intro st; exact ⟨[], by simp [auxLoop_nil]⟩
  | cons p rest ih =>
    rcases p with ⟨name, nodes⟩
    intro st
    by_cases hm : name = mainName
    · rw [auxLoop_cons_skip hm]
      exact ih st
    · rcases htp : translate ctx client (get_text_from_nodes nodes)
        { st with trace := st.trace ++ [Event.ongoing name] } with ⟨o, st2⟩
      obtain ⟨ctail, _, htrans⟩ := translate_trace ctx client (get_text_from_nodes nodes)
        { st with trace := st.trace ++ [Event.ongoing name] }
      rw [htp] at htrans
      simp at htrans
      cases o with
      | none =>
        rw [auxLoop_cons_fail hm htp]
        exact ⟨[Event.ongoing name] ++ ctail, by simp [htrans]⟩
      | some t =>
        rw [auxLoop_cons_ok hm htp]
        obtain ⟨tail2, htail2⟩ := ih
          { st2 with trace := st2.trace ++ [Event.write ("translated_" ++ name) t] }
        refine ⟨[Event.ongoing name] ++ ctail ++
          [Event.write ("translated_" ++ name) t] ++ tail2, ?_⟩
        rw [htail2]
        simp [htrans]

/-- C1: for a main source whose top-level node list contains the
translatable `document` environment, `translate_project` writes a main
output equal to: the verbatim concatenation of the nodes before the
environment, the re-synthesized opening marker, the translated inner text
`T`, the re-synthesized closing marker, and the verbatim concatenation of
the nodes after the environment.  The environment's original markers `bm`
and `em` are arbitrary and never copied into the output. -/
theorem main_body_reconstruction
    (ctx : Collaborators) (client : Client) (prior : St) (mainName : String)
    (pre post inner : List Node) (bm em : String)
    (rest : List (String × List Node)) (T : String) (st2 : St)
    (hpre : ∀ n ∈ pre, find_env_node n "document" = none)
    (hpost : ∀ n ∈ post, find_env_node n "document" = none)
    (htr : translate ctx client (get_text_from_nodes inner)
        { translation_responses := [], translated_chunks := 0, ncalls := 0,
          trace := [Event.ongoing mainName] } = (some T, st2)) :
    Event.write ("translated_" ++ mainName)
        (verbatimList pre ++ "\n\\begin{document}\n" ++ T ++
          ("\n\\end{document}" ++ verbatimList post)) ∈
      (translate_project ctx client
        { sources := (mainName, pre ++ Node.env "document" bm em inner :: post) :: rest
          main_source := mainName } prior).st.trace := by
  have hlk : lookupSource
      ((mainName, pre ++ Node.env "document" bm em inner :: post) :: rest) mainName =
      some (pre ++ Node.env "document" bm em inner :: post) := by
    simp [lookupSource]
  have hms := mainScan_split pre post inner bm em hpre hpost
  have harg : getTextFromOptNodes
      (mainScan (pre ++ Node.env "document" bm em inner :: post)).docNodes =
      get_text_from_nodes inner := by
    rw [hms]
    rfl
  have ht' : translate ctx client
      (getTextFromOptNodes
        (mainScan (pre ++ Node.env "document" bm em inner :: post)).docNodes)
      { translation_responses := [], translated_chunks := 0, ncalls := 0,
        trace := [Event.ongoing mainName] } = (some T, st2) := by
    rw [harg]
    exact htr
  rw [translate_project_ok hlk ht']
  obtain ⟨tail, htail⟩ := auxLoop_trace_extends ctx client mainName
    ((mainName, pre ++ Node.env "document" bm em inner :: post) :: rest)
    { st2 with trace := st2.trace ++
        [Event.write ("translated_" ++ mainName)
          ((mainScan (pre ++ Node.env "document" bm em inner :: post)).before ++ T ++
            (mainScan (pre ++ Node.env "document" bm em inner :: post)).after)] }
  rw [htail]
  simp [hms]

/-- Witness for C1 on a concrete one-source project. -/
theorem main_body_reconstruction_witness :
    Event.write ("translated_" ++ "m.tex")
        (verbatimList [] ++ "\n\\begin{document}\n" ++ "ok" ++
          ("\n\\end{document}" ++ verbatimList [])) ∈
      (translate_project echoCollab okClient
        { sources := [("m.tex",
            [] ++ Node.env "document" "\\begin{document}" "\\end{document}"
              [Node.text "hello"] :: [])]
          main_source := "m.tex" } initSt).st.trace :=
  main_body_reconstruction echoCollab okClient initSt "m.tex" [] []
    [Node.text "hello"] "\\begin{document}" "\\end{document}" [] "ok"
    { translation_responses := [⟨"```ok```", some ⟨some 1, some 1⟩⟩]
      translated_chunks := 1
      ncalls := 1
      trace := [Event.ongoing "m.tex", Event.chunkCb 1 []] }
    (by simp) (by simp) (by decide)

/-- C4 counterexample: the claim as stated is false.  In a concrete
one-chunk run the chunk-complete callback fires with the counter already
incremented to 1 but with the response list still empty — the chunk's
response is appended only after the callback returns (`main.py` line 34
runs after lines 32–33).  If the response were already appended at callback
time, every snapshot would satisfy `rs.length = k`. -/
theorem chunk_callback_before_append_cex :
    ¬ (∀ (k : Nat) (rs : List Response), Event.chunkCb k rs ∈
        (translate echoCollab okClient "x" initSt).2.trace → rs.length = k) := by
  intro h
  have h1 := h 1 [] (by decide)
  simp at h1

theorem translateLoop_cons_ok_mk {ctx : Collaborators} {client : Client}
    {chunk : String} {rest acc : List String} {resps0 : List Response}
    {tc0 nc0 : Nat} {tr0 : List Event} {response : Response}
    (hc : client nc0 (ctx.create_messages chunk) = some response) :
    translateLoop ctx client (chunk :: rest) acc ⟨resps0, tc0, nc0, tr0⟩ =
      translateLoop ctx client rest (acc ++ [extract response.content])
        ⟨resps0 ++ [response], tc0 + 1, nc0 + 1,
          tr0 ++ [Event.chunkCb (tc0 + 1) resps0]⟩ := by
  rw [translateLoop]
  rw [show (⟨resps0, tc0, nc0, tr0⟩ : St).ncalls = nc0 from rfl, hc]

theorem translateLoop_ok_spec (ctx : Collaborators) (client : Client) :
    ∀ (chunks acc : List String) (resps0 : List Response) (tc0 nc0 : Nat)
      (tr0 : List Event),
      (∀ k, k < chunks.length →
        (client (nc0 + k) (ctx.create_messages (chunks.getD k ""))).isSome = true) →
      ∃ rs : List Response,
        rs.length = chunks.length ∧
        (translateLoop ctx client chunks acc ⟨resps0, tc0, nc0, tr0⟩).2.trace =
          tr0 ++ (List.range chunks.length).map
            (fun i => Event.chunkCb (tc0 + i + 1) (resps0 ++ rs.take i)) ∧
        (translateLoop ctx client chunks acc
            ⟨resps0, tc0, nc0, tr0⟩).2.translation_responses = resps0 ++ rs ∧
        ((translateLoop ctx client chunks acc ⟨resps0, tc0, nc0, tr0⟩).1).isSome
          = true := by
  intro chunks
  induction chunks with
  | nil =>
    intro acc resps0 tc0 nc0 tr0 _
    refine ⟨[], rfl, ?_, ?_, ?_⟩ <;> simp [translateLoop_nil]
  | cons chunk rest ih =>
    intro acc resps0 tc0 nc0 tr0 hok
    have h0 : (client nc0 (ctx.create_messages chunk)).isSome = true := by
      have h := hok 0 (by simp)
      simpa using h
    rw [Option.isSome_iff_exists] at h0
    obtain ⟨response, hresp⟩ := h0
    have hok' : ∀ k, k < rest.length →
        (client (nc0 + 1 + k) (ctx.create_messages (rest.getD k ""))).isSome = true := by
      intro k hk
      have h := hok (k + 1) (by simpa using Nat.succ_lt_succ hk)
      have harith : nc0 + (k + 1) = nc0 + 1 + k := by omega
      simpa [harith] using h
    obtain ⟨rs', hlen, htrace, hresps, hout⟩ := ih (acc ++ [extract response.content])
      (resps0 ++ [response]) (tc0 + 1) (nc0 + 1)
      (tr0 ++ [Event.chunkCb (tc0 + 1) resps0]) hok'
    have hstep := @translateLoop_cons_ok_mk ctx client chunk rest acc resps0
      tc0 nc0 tr0 response hresp
    have hcong : List.map
        ((fun i => Event.chunkCb (tc0 + i + 1) (resps0 ++ (response :: rs').take i)) ∘
          Nat.succ) (List.range rest.length) =
        List.map (fun i => Event.chunkCb (tc0 + 1 + i + 1)
          ((resps0 ++ [response]) ++ rs'.take i)) (List.range rest.length) := by
      apply List.map_congr_left
      intro i _
      have h1 : tc0 + (i + 1) + 1 = tc0 + 1 + i + 1 := by omega
      simp [Function.comp, List.take_succ_cons, h1]
    refine ⟨response :: rs', by simp [hlen], ?_, ?_, ?_⟩
    · rw [hstep, htrace]
      simp only [List.length_cons, List.range_succ_eq_map, List.map_cons, List.map_map]
      rw [hcong]
      simp
    · rw [hstep, hresps]
      simp
    · rw [hstep]
      exact hout

/-- C4 amended: during `translate`, the chunk-complete callback fires
exactly once per chunk; at the moment it fires, `translated_chunks` has
already been incremented (to the chunk's 1-based ordinal), while the
chunk's response is not yet in `translation_responses` — the snapshot holds
exactly the previous chunks' responses, and the response is appended
immediately after the callback (so the final state holds all of them). -/
theorem chunk_callback_order (ctx : Collaborators) (client : Client)
    (text : String) (st : St)
    (hok : ∀ k, k < (ctx.split_text text).length →
      (client (st.ncalls + k)
        (ctx.create_messages ((ctx.split_text text).getD k ""))).isSome = true) :
    ∃ rs : List Response,
      rs.length = (ctx.split_text text).length ∧
      (translate ctx client text st).2.trace =
        st.trace ++ (List.range (ctx.split_text text).length).map
          (fun i => Event.chunkCb (st.translated_chunks + i + 1)
            (st.translation_responses ++ rs.take i)) ∧
      (translate ctx client text st).2.translation_responses =
        st.translation_responses ++ rs := by
  obtain ⟨rs, hlen, htrace, hresps, hout⟩ := translateLoop_ok_spec ctx client
    (ctx.split_text text) [] st.translation_responses st.translated_chunks
    st.ncalls st.trace hok
  refine ⟨rs, hlen, ?_, ?_⟩
  · rw [translate_snd]
    exact htrace
  · rw [translate_snd]
    exact hresps

/-- Witness for C4 amended: a concrete two-chunk run; the first callback
sees counter 1 and no responses, the second sees counter 2 and only the
first response. -/
theorem chunk_callback_order_witness :
    ∃ rs : List Response,
      rs.length = (splitTwoCollab.split_text "x").length ∧
      (translate splitTwoCollab okClient "x" initSt).2.trace =
        initSt.trace ++ (List.range (splitTwoCollab.split_text "x").length).map
          (fun i => Event.chunkCb (initSt.translated_chunks + i + 1)
            (initSt.translation_responses ++ rs.take i)) ∧
      (translate splitTwoCollab okClient "x" initSt).2.translation_responses =
        initSt.translation_responses ++ rs :=
  chunk_callback_order splitTwoCollab okClient "x" initSt (by decide)

theorem auxOrder_cons_skip {mainName name : String} {nodes : List Node}
    {rest : List (String × List Node)} (h : name = mainName) :
    auxOrder mainName ((name, nodes) :: rest) = auxOrder mainName rest := by
  simp [auxOrder, h]

theorem auxOrder_cons_ne {mainName name : String} {nodes : List Node}
    {rest : List (String × List Node)} (h : ¬ name = mainName) :
    auxOrder mainName ((name, nodes) :: rest) = name :: auxOrder mainName rest := by
  simp [auxOrder, h]

theorem auxLoop_ok_segs (ctx : Collaborators) (client : Client) (mainName : String) :
    ∀ (l : List (String × List Node)) (st : St),
      (auxLoop ctx client mainName l st).err = none →
      ∃ segs, List.Forall₂ bodySeg (auxOrder mainName l) segs ∧
        (auxLoop ctx client mainName l st).st.trace = st.trace ++ segs.flatten := by
  intro l
  induction l with
  | nil =>
    intro st _
    refine ⟨[], List.Forall₂.nil, ?_⟩
    simp [auxLoop_nil]
  | cons p rest ih =>
    rcases p with ⟨name, nodes⟩
    intro st herr
    by_cases hm : name = mainName
    · rw [auxLoop_cons_skip hm] at herr ⊢
      obtain ⟨segs, hall, htr⟩ := ih st herr
      refine ⟨segs, ?_, htr⟩
      rw [auxOrder_cons_skip hm]
      exact hall
    · rcases htp : translate ctx client (get_text_from_nodes nodes)
        { st with trace := st.trace ++ [Event.ongoing name] } with ⟨o, st2⟩
      obtain ⟨ctail, hco, htrans⟩ := translate_trace ctx client
        (get_text_from_nodes nodes)
        { st with trace := st.trace ++ [Event.ongoing name] }
      rw [htp] at htrans
      simp at htrans
      cases o with
      | none =>
        rw [auxLoop_cons_fail hm htp] at herr
        simp at herr
      | some t =>
        rw [auxLoop_cons_ok hm htp] at herr ⊢
        obtain ⟨segs, hall, htr⟩ := ih _ herr
        refine ⟨(Event.ongoing name ::
          (ctail ++ [Event.write ("translated_" ++ name) t])) :: segs, ?_, ?_⟩
        · rw [auxOrder_cons_ne hm]
          exact List.Forall₂.cons ⟨ctail, t, hco, rfl⟩ hall
        · rw [htr]
          simp [htrans]

/-- C5: a successful `translate_project` run processes bodies strictly
sequentially with no interleaving, in the order: main source first, then
each auxiliary source in the project's declared key order; the trace is a
concatenation of per-body segments, each opening with that body's
ongoing-file callback before any of its chunk work. -/
theorem body_sequencing (ctx : Collaborators) (client : Client)
    (source : LatexSourcesLoader) (prior : St)
    (herr : (translate_project ctx client source prior).err = none) :
    ∃ segs, List.Forall₂ bodySeg (bodyOrder source) segs ∧
      (translate_project ctx client source prior).st.trace = segs.flatten := by
  cases hlk : lookupSource source.sources source.main_source with
  | none =>
    rw [translate_project_none hlk] at herr
    simp at herr
  | some nodes =>
    rcases htp : translate ctx client (getTextFromOptNodes (mainScan nodes).docNodes)
      { translation_responses := [], translated_chunks := 0, ncalls := 0,
        trace := [Event.ongoing source.main_source] } with ⟨o, st2⟩
    obtain ⟨ctail, hco, htrans⟩ := translate_trace ctx client
      (getTextFromOptNodes (mainScan nodes).docNodes)
      { translation_responses := [], translated_chunks := 0, ncalls := 0,
        trace := [Event.ongoing source.main_source] }
    rw [htp] at htrans
    simp at htrans
    cases o with
    | none =>
      rw [translate_project_fail hlk htp] at herr
      simp at herr
    | some t =>
      rw [translate_project_ok hlk htp] at herr ⊢
      obtain ⟨segs, hall, htr⟩ := auxLoop_ok_segs ctx client source.main_source
        source.sources _ herr
      refine ⟨(Event.ongoing source.main_source ::
        (ctail ++ [Event.write ("translated_" ++ source.main_source)
          ((mainScan nodes).before ++ t ++ (mainScan nodes).after)])) :: segs,
        ?_, ?_⟩
      · exact List.Forall₂.cons ⟨ctail,
          (mainScan nodes).before ++ t ++ (mainScan nodes).after, hco, rfl⟩ hall
      · rw [htr]
        simp [htrans]

/-- Witness for C5: the three-body sample project runs to completion and
its trace splits into per-body segments in order m.tex, a.tex, b.tex. -/
theorem body_sequencing_witness :
    ∃ segs, List.Forall₂ bodySeg (bodyOrder sampleLoader) segs ∧
      (translate_project echoCollab okClient sampleLoader initSt).st.trace =
        segs.flatten :=
  body_sequencing echoCollab okClient sampleLoader initSt (by decide)

theorem ongoingNames_nil : ongoingNames [] = [] := rfl

theorem writeNames_nil : writeNames [] = [] := rfl

theorem ongoingNames_append (a b : List Event) :
    ongoingNames (a ++ b) = ongoingNames a ++ ongoingNames b := by
  simp [ongoingNames]

theorem writeNames_append (a b : List Event) :
    writeNames (a ++ b) = writeNames a ++ writeNames b := by
  simp [writeNames]

theorem ongoingNames_cons_ongoing (n : String) (l : List Event) :
    ongoingNames (Event.ongoing n :: l) = n :: ongoingNames l := by
  simp [ongoingNames, ongoingName]

theorem ongoingNames_cons_write (n c : String) (l : List Event) :
    ongoingNames (Event.write n c :: l) = ongoingNames l := by
  simp [ongoingNames, ongoingName]

theorem writeNames_cons_write (n c : String) (l : List Event) :
    writeNames (Event.write n c :: l) = n :: writeNames l := by
  simp [writeNames, writeName]

theorem writeNames_cons_ongoing (n : String) (l : List Event) :
    writeNames (Event.ongoing n :: l) = writeNames l := by
  simp [writeNames, writeName]

theorem ongoingNames_chunkOnly {l : List Event} (h : chunkOnly l) :
    ongoingNames l = [] := by
  rw [ongoingNames, List.filterMap_eq_nil_iff]
  intro e he
  have hc := h e he
  cases e with
  | ongoing n => simp [Event.isChunk] at hc
  | chunkCb k rs => rfl
  | write n c => simp [Event.isChunk] at hc

theorem writeNames_chunkOnly {l : List Event} (h : chunkOnly l) :
    writeNames l = [] := by
  rw [writeNames, List.filterMap_eq_nil_iff]
  intro e he
  have hc := h e he
  cases e with
  | ongoing n => simp [Event.isChunk] at hc
  | chunkCb k rs => rfl
  | write n c => simp [Event.isChunk] at hc

theorem auxLoop_fail_names (ctx : Collaborators) (client : Client)
    (mainName : String) :
    ∀ (l : List (String × List Node)) (st : St) (e : RunErr),
      (auxLoop ctx client mainName l st).err = some e →
      e = RunErr.clientError ∧
      ∃ done fail,
        (done ++ [fail]) <+: auxOrder mainName l ∧
        ongoingNames (auxLoop ctx client mainName l st).st.trace =
          ongoingNames st.trace ++ (done ++ [fail]) ∧
        writeNames (auxLoop ctx client mainName l st).st.trace =
          writeNames st.trace ++ done.map (fun n => "translated_" ++ n) := by
  intro l
  induction l with
  | nil =>
    intro st e herr
    rw [auxLoop_nil] at herr
    simp at herr
  | cons p rest ih =>
    rcases p with ⟨name, nodes⟩
    intro st e herr
    by_cases hm : name = mainName
    · rw [auxLoop_cons_skip hm] at herr ⊢
      obtain ⟨he, done, fail, hpre, hon, hwr⟩ := ih st e herr
      refine ⟨he, done, fail, ?_, hon, hwr⟩
      rw [auxOrder_cons_skip hm]
      exact hpre
    · rcases htp : translate ctx client (get_text_from_nodes nodes)
        { st with trace := st.trace ++ [Event.ongoing name] } with ⟨o, st2⟩
      obtain ⟨ctail, hco, htrans⟩ := translate_trace ctx client
        (get_text_from_nodes nodes)
        { st with trace := st.trace ++ [Event.ongoing name] }
      rw [htp] at htrans
      simp at htrans
      cases o with
      | none =>
        rw [auxLoop_cons_fail hm htp] at herr ⊢
        have he : e = RunErr.clientError := by
          simpa [eq_comm] using herr
        refine ⟨he, [], name, ?_, ?_, ?_⟩
        · rw [auxOrder_cons_ne hm]
          exact ⟨auxOrder mainName rest, by simp⟩
        · rw [htrans, ongoingNames_append, ongoingNames_cons_ongoing,
            ongoingNames_chunkOnly hco]
          simp
        · rw [htrans, writeNames_append, writeNames_cons_ongoing,
            writeNames_chunkOnly hco]
          simp
      | some t =>
        rw [auxLoop_cons_ok hm htp] at herr ⊢
        obtain ⟨he, done', fail, hpre, hon, hwr⟩ := ih _ e herr
        refine ⟨he, name :: done', fail, ?_, ?_, ?_⟩
        · rw [auxOrder_cons_ne hm]
          obtain ⟨tl, htl⟩ := hpre
          exact ⟨tl, by simp [← htl]⟩
        · rw [hon]
          simp [htrans, ongoingNames_append, ongoingNames_cons_ongoing,
            ongoingNames_cons_write, ongoingNames_chunkOnly hco, ongoingNames_nil]
        · rw [hwr]
          simp [htrans, writeNames_append, writeNames_cons_write,
            writeNames_cons_ongoing, writeNames_chunkOnly hco, writeNames_nil]

/-- C7: if the completion client fails on a chunk, the body's `translate`
call aborts (so the run error is `clientError`); at that point the trace
shows: one ongoing-file callback per processed body (a prefix of the body
order ending in the failed body), an output artifact written for exactly
the bodies completed before the failure, and no artifact ever written for
the failed in-flight body. -/
theorem failure_artifacts (ctx : Collaborators) (client : Client)
    (source : LatexSourcesLoader) (prior : St)
    (hnd : (bodyOrder source).Nodup)
    (herr : (translate_project ctx client source prior).err =
      some RunErr.clientError) :
    ∃ done fail,
      (done ++ [fail]) <+: bodyOrder source ∧
      ongoingNames (translate_project ctx client source prior).st.trace =
        done ++ [fail] ∧
      writeNames (translate_project ctx client source prior).st.trace =
        done.map (fun n => "translated_" ++ n) ∧
      ("translated_" ++ fail) ∉
        writeNames (translate_project ctx client source prior).st.trace := by
  cases hlk : lookupSource source.sources source.main_source with
  | none =>
    rw [translate_project_none hlk] at herr
    simp at herr
  | some nodes =>
    rcases htp : translate ctx client (getTextFromOptNodes (mainScan nodes).docNodes)
      { translation_responses := [], translated_chunks := 0, ncalls := 0,
        trace := [Event.ongoing source.main_source] } with ⟨o, st2⟩
    obtain ⟨ctail, hco, htrans⟩ := translate_trace ctx client
      (getTextFromOptNodes (mainScan nodes).docNodes)
      { translation_responses := [], translated_chunks := 0, ncalls := 0,
        trace := [Event.ongoing source.main_source] }
    rw [htp] at htrans
    simp at htrans
    cases o with
    | none =>
      rw [translate_project_fail hlk htp] at herr ⊢
      refine ⟨[], source.main_source, ?_, ?_, ?_, ?_⟩
      · exact ⟨auxOrder source.main_source source.sources, rfl⟩
      · rw [show ({ err := some RunErr.clientError, st := st2 } : ProjectOut).st.trace
            = st2.trace from rfl]
        rw [htrans, ongoingNames_cons_ongoing, ongoingNames_chunkOnly hco]
        rfl
      · rw [show ({ err := some RunErr.clientError, st := st2 } : ProjectOut).st.trace
            = st2.trace from rfl]
        rw [htrans, writeNames_cons_ongoing, writeNames_chunkOnly hco]
        rfl
      · rw [show ({ err := some RunErr.clientError, st := st2 } : ProjectOut).st.trace
            = st2.trace from rfl]
        rw [htrans, writeNames_cons_ongoing, writeNames_chunkOnly hco]
        simp
    | some t =>
      rw [translate_project_ok hlk htp] at herr ⊢
      obtain ⟨-, done', fail, hpre, hon, hwr⟩ := auxLoop_fail_names ctx client
        source.main_source source.sources _ RunErr.clientError herr
      have hbodies : ((source.main_source :: done') ++ [fail]) <+: bodyOrder source := by
        obtain ⟨tl, htl⟩ := hpre
        exact ⟨tl, by simp [← htl, bodyOrder]⟩
      have hfl : fail ∉ source.main_source :: done' := by
        have hnd2 : ((source.main_source :: done') ++ [fail]).Nodup :=
          List.Nodup.sublist hbodies.sublist hnd
        have hdisj := (List.nodup_append.mp hnd2).2.2
        intro hmem
        exact hdisj hmem (by simp)
      have hwn : writeNames
          ({ st2 with trace := st2.trace ++
              [Event.write ("translated_" ++ source.main_source)
                ((mainScan nodes).before ++ t ++ (mainScan nodes).after)] } : St).trace =
          ["translated_" ++ source.main_source] := by
        simp [htrans, writeNames_append, writeNames_cons_write,
          writeNames_cons_ongoing, writeNames_chunkOnly hco, writeNames_nil]
      refine ⟨source.main_source :: done', fail, hbodies, ?_, ?_, ?_⟩
      · rw [hon]
        simp [htrans, ongoingNames_append, ongoingNames_cons_ongoing,
          ongoingNames_cons_write, ongoingNames_chunkOnly hco, ongoingNames_nil]
      · rw [hwr, hwn]
        simp
      · rw [hwr, hwn]
        intro hmem
        rcases List.mem_append.mp hmem with h1 | h1
        · have h1' : "translated_" ++ fail = "translated_" ++ source.main_source :=
            List.mem_singleton.mp h1
          have hq : fail = source.main_source := string_append_left_cancel h1'
          exact hfl (hq ▸ List.mem_cons_self _ _)
        · obtain ⟨x, hx, h2⟩ := List.mem_map.mp h1
          have hq : x = fail := string_append_left_cancel h2
          exact hfl (by rw [← hq]; exact List.mem_cons_of_mem _ hx)

/-- Witness for C7: the three-body sample project with a client that fails
from the second call on: the main body is translated and written, the
first auxiliary body fails in flight and its artifact is never written. -/
theorem failure_artifacts_witness :
    ∃ done fail,
      (done ++ [fail]) <+: bodyOrder sampleLoader ∧
      ongoingNames (translate_project echoCollab failSecondClient sampleLoader
        initSt).st.trace = done ++ [fail] ∧
      writeNames (translate_project echoCollab failSecondClient sampleLoader
        initSt).st.trace = done.map (fun n => "translated_" ++ n) ∧
      ("translated_" ++ fail) ∉
        writeNames (translate_project echoCollab failSecondClient sampleLoader
          initSt).st.trace :=
  failure_artifacts echoCollab failSecondClient sampleLoader initSt
    (by decide) (by decide)

end LatexCopilot
